import Mathlib

/- Verification of the CL-MOT training-target pipeline (jde.py) and the
   multi-task loss (mot.py): shallow embeddings of the letterbox geometry,
   the random-affine box filter, the identity-space construction, the joint
   sample indexer, the ground-truth encoder and the MotLoss module, with
   theorems checking the documented behaviour against these embeddings. -/

set_option linter.unusedVariables false

/-- One parsed label row: class, identity and normalized box fields, in the
label-file layout (class id cx cy w h). Identities are integers, -1 being the
unknown/ignore sentinel. -/
structure LabelRow where
  cls : ℤ
  tid : ℤ
  cx : ℚ
  cy : ℚ
  w : ℚ
  h : ℚ
deriving DecidableEq

/-- Clip a value into a closed interval, as numpy clip does. -/
def npClip (x lo hi : ℚ) : ℚ := min (max x lo) hi

/-- Truncation toward zero, as a float-to-int32 cast does. -/
def truncQ (q : ℚ) : ℤ := q.num / (q.den : ℤ)

/-- Round half to even, as Python round does on exact values. -/
def pyRound (q : ℚ) : ℤ :=
  if Int.fract q = 1/2 then (if 2 ∣ ⌊q⌋ then ⌊q⌋ else ⌊q⌋ + 1) else round q

/-- Result of the letterbox resize: the chosen scale factor, the fractional
half-paddings dw and dh, the integer borders, and the padded output shape. -/
structure LetterboxResult where
  lbScale : ℚ
  dw : ℚ
  dh : ℚ
  top : ℤ
  bottom : ℤ
  left : ℤ
  right : ℤ
  outW : ℤ
  outH : ℤ
deriving DecidableEq

/-- Embeds letterbox (jde.py 261-273) for an h-by-w image and an H-by-W
target: scale = min of the two axis ratios, new size by rounding, paddings
dw, dh split into rounded borders; the output shape is the resized shape plus
the borders. The pixel work itself (cv2 resize, copyMakeBorder) is external. -/
def letterbox (h w H W : ℤ) : LetterboxResult :=
  let sc : ℚ := min ((H : ℚ) / (h : ℚ)) ((W : ℚ) / (w : ℚ))
  let newW : ℤ := pyRound ((w : ℚ) * sc)
  let newH : ℤ := pyRound ((h : ℚ) * sc)
  let dw : ℚ := ((W : ℚ) - (newW : ℚ)) / 2
  let dh : ℚ := ((H : ℚ) - (newH : ℚ)) / 2
  let top : ℤ := pyRound (dh - 1/10)
  let bottom : ℤ := pyRound (dh + 1/10)
  let left : ℤ := pyRound (dw - 1/10)
  let right : ℤ := pyRound (dw + 1/10)
  ⟨sc, dw, dh, top, bottom, left, right, newW + left + right, newH + top + bottom⟩

/-- A 3x3 matrix of rationals, entries row-major. The trigonometric inputs of
the source (cos and sin of the drawn angle, tangents of the shears) enter as
parameters. -/
structure Mat3 where
  a00 : ℚ
  a01 : ℚ
  a02 : ℚ
  a10 : ℚ
  a11 : ℚ
  a12 : ℚ
  a20 : ℚ
  a21 : ℚ
  a22 : ℚ
deriving DecidableEq

def matMul (A B : Mat3) : Mat3 :=
  ⟨A.a00 * B.a00 + A.a01 * B.a10 + A.a02 * B.a20,
   A.a00 * B.a01 + A.a01 * B.a11 + A.a02 * B.a21,
   A.a00 * B.a02 + A.a01 * B.a12 + A.a02 * B.a22,
   A.a10 * B.a00 + A.a11 * B.a10 + A.a12 * B.a20,
   A.a10 * B.a01 + A.a11 * B.a11 + A.a12 * B.a21,
   A.a10 * B.a02 + A.a11 * B.a12 + A.a12 * B.a22,
   A.a20 * B.a00 + A.a21 * B.a10 + A.a22 * B.a20,
   A.a20 * B.a01 + A.a21 * B.a11 + A.a22 * B.a21,
   A.a20 * B.a02 + A.a21 * B.a12 + A.a22 * B.a22⟩

def idMat3 : Mat3 := ⟨1, 0, 0, 0, 1, 0, 0, 0, 1⟩

/-- Embeds cv2.getRotationMatrix2D placed into a 3x3 matrix (jde.py 286-290):
alpha = s cos a, beta = s sin a, with the usual center-relative offsets. -/
def rotScaleMat (cosA sinA s cX cY : ℚ) : Mat3 :=
  let α := s * cosA
  let β := s * sinA
  ⟨α, β, (1 - α) * cX - β * cY, -β, α, β * cX + (1 - α) * cY, 0, 0, 1⟩

/-- Embeds the translation matrix T (jde.py 293-295). -/
def translateMat (tx ty : ℚ) : Mat3 := ⟨1, 0, tx, 0, 1, ty, 0, 0, 1⟩

/-- Embeds the shear matrix S (jde.py 298-300); the entries are the tangents
of the drawn shear angles. -/
def shearMat (tanX tanY : ℚ) : Mat3 := ⟨1, tanX, 0, tanY, 1, 0, 0, 0, 1⟩

/-- Embeds the combined transform M = S @ T @ R (jde.py 302); the composition
order of the source is preserved. -/
def affineM (cosA sinA s tx ty tanX tanY cX cY : ℚ) : Mat3 :=
  matMul (matMul (shearMat tanX tanY) (translateMat tx ty)) (rotScaleMat cosA sinA s cX cY)

/-- One target row of random-affine, in the layout class, id, x1, y1, x2, y2
(absolute pixel xyxy coordinates). -/
structure TBox where
  cls : ℤ
  tid : ℤ
  x1 : ℚ
  y1 : ℚ
  x2 : ℚ
  y2 : ℚ
deriving DecidableEq

/-- The 1e-16 guard constant of the source filter. -/
def epsQ : ℚ := 1 / 10 ^ 16

structure WarpedBox where
  x1 : ℚ
  y1 : ℚ
  x2 : ℚ
  y2 : ℚ
deriving DecidableEq

/-- Apply the affine part of the 3x3 transform to a point; the source code
takes the first two coordinates of the row-vector product without any
perspective division (jde.py 314-316). -/
def warpPt (M : Mat3) (x y : ℚ) : ℚ × ℚ :=
  (M.a00 * x + M.a01 * y + M.a02, M.a10 * x + M.a11 * y + M.a12)

/-- Warp the four corners of a box, take the axis-aligned envelope, and shrink
width and height by the angle-based reduction factor about the center
(jde.py 313-330). The reduction factor enters as a parameter; the source
computes it from the drawn angle. -/
def warpBoxRaw (red : ℚ) (M : Mat3) (b : TBox) : WarpedBox :=
  let p1 := warpPt M b.x1 b.y1
  let p2 := warpPt M b.x2 b.y2
  let p3 := warpPt M b.x1 b.y2
  let p4 := warpPt M b.x2 b.y1
  let xmin := min (min p1.1 p2.1) (min p3.1 p4.1)
  let xmax := max (max p1.1 p2.1) (max p3.1 p4.1)
  let ymin := min (min p1.2 p2.2) (min p3.2 p4.2)
  let ymax := max (max p1.2 p2.2) (max p3.2 p4.2)
  let cx := (xmax + xmin) / 2
  let cy := (ymax + ymin) / 2
  let wq := (xmax - xmin) * red
  let hq := (ymax - ymin) * red
  ⟨cx - wq / 2, cy - hq / 2, cx + wq / 2, cy + hq / 2⟩

/-- Clip a warped box to the image bounds (jde.py 333-336). -/
def clipBoxTo (width height : ℚ) (wb : WarpedBox) : WarpedBox :=
  ⟨npClip wb.x1 0 width, npClip wb.y1 0 height, npClip wb.x2 0 width, npClip wb.y2 0 height⟩

/-- Post-clip width of a warped box. -/
def clippedW (red : ℚ) (M : Mat3) (iw ihq : ℚ) (t : TBox) : ℚ :=
  (clipBoxTo iw ihq (warpBoxRaw red M t)).x2 - (clipBoxTo iw ihq (warpBoxRaw red M t)).x1

/-- Post-clip height of a warped box. -/
def clippedH (red : ℚ) (M : Mat3) (iw ihq : ℚ) (t : TBox) : ℚ :=
  (clipBoxTo iw ihq (warpBoxRaw red M t)).y2 - (clipBoxTo iw ihq (warpBoxRaw red M t)).y1

/-- Warp, reduce, clip and filter one box (jde.py 307-344): the box is kept
exactly when post-clip width and height exceed 4, the area ratio against the
pre-warp area (guarded by 1e-16) exceeds 0.1, and both guarded aspect ratios
are below 10; a kept box gets the clipped coordinates. -/
def processBox (red : ℚ) (M : Mat3) (width height : ℚ) (b : TBox) : Option TBox :=
  let area0 := (b.x2 - b.x1) * (b.y2 - b.y1)
  let cb := clipBoxTo width height (warpBoxRaw red M b)
  let wq := cb.x2 - cb.x1
  let hq := cb.y2 - cb.y1
  if 4 < wq ∧ 4 < hq ∧ 1/10 < wq * hq / (area0 + epsQ) ∧
      max (wq / (hq + epsQ)) (hq / (wq + epsQ)) < 10 then
    some { b with x1 := cb.x1, y1 := cb.y1, x2 := cb.x2, y2 := cb.y2 }
  else none

/-- The box list returned by random-affine for a given transform matrix and
reduction factor: the surviving boxes with their clipped coordinates. -/
def randomAffineBoxes (red : ℚ) (M : Mat3) (width height : ℚ) (targets : List TBox) : List TBox :=
  targets.filterMap (processBox red M width height)

/-- The angle-based reduction factor of jde.py 324-325, over the reals. -/
noncomputable def reductionFactorR (θ : ℝ) : ℝ :=
  (max |Real.sin θ| |Real.cos θ|) ^ ((1 : ℝ) / 2)

/-- Running maximum over the identity column of the remaining rows. -/
def fileColMaxGo : List LabelRow → ℤ → ℤ
  | [], mx => mx
  | r :: rs, mx => fileColMaxGo rs (max mx r.tid)

/-- Per-file maximum identity (jde.py 403-410): none for an empty file; a
one-row file contributes that row's identity, a multi-row file the column
maximum. -/
def fileMax : List LabelRow → Option ℤ
  | [] => none
  | r :: rs => some (fileColMaxGo rs r.tid)

/-- The max-index accumulation over all label files of one dataset
(jde.py 401-412), starting from -1 and skipping empty files. -/
def dsMaxIndexGo : List (List LabelRow) → ℤ → ℤ
  | [], mx => mx
  | f :: fs, mx =>
      dsMaxIndexGo fs
        (match fileMax f with
          | none => mx
          | some m => if m > mx then m else mx)

/-- Local identity count of one dataset: final max index plus one
(jde.py 413). -/
def datasetTidNum (files : List (List LabelRow)) : ℤ := dsMaxIndexGo files (-1) + 1

/-- Maximum of a list of integers, none when empty (comparison helper). -/
def listMaxOpt : List ℤ → Option ℤ
  | [] => none
  | x :: xs =>
      match listMaxOpt xs with
      | none => some x
      | some m => some (max x m)

/-- Modelled from the spec: the maximum identity value observed across the
label files of a dataset, none when no identity is ever observed. -/
def maxObserved : List (List LabelRow) → Option ℤ
  | [] => none
  | f :: fs =>
      match listMaxOpt (f.map LabelRow.tid), maxObserved fs with
      | none, b => b
      | some a, none => some a
      | some a, some b => some (max a b)

/-- The running-offset loop of jde.py 416-419: each dataset gets the running
total as its start index, then the total advances by its local count. -/
def tidStartsGo : List ℤ → ℤ → List ℤ
  | [], _ => []
  | v :: vs, last => last :: tidStartsGo vs (last + v)

/-- Global start offsets for the given local identity counts, in registration
order. -/
def tidStarts (counts : List ℤ) : List ℤ := tidStartsGo counts 0

/-- Total identity count nID = last running total + 1 (jde.py 422). -/
def jdeNID (counts : List ℤ) : ℤ := counts.foldl (· + ·) 0 + 1

/-- Per-sample identity remapping (jde.py 466-468): add the dataset start
offset only to identities strictly greater than -1. -/
def offsetId (start tid : ℤ) : ℤ := if tid > -1 then tid + start else tid

/-- The cumulative-start construction of jde.py 425-431: the running image
total before each dataset is appended. -/
def buildCdsGo : List ℕ → ℕ → List ℕ
  | [], _ => []
  | c :: cs, nF => nF :: buildCdsGo cs (nF + c)

def buildCds (counts : List ℕ) : List ℕ := buildCdsGo counts 0

/-- The linear scan of jde.py 451-454: every dataset whose cumulative start is
at most the flat index overwrites the result, so the last such dataset wins. -/
def resolveGo : List ℕ → ℕ → ℕ → Option (ℕ × ℕ) → Option (ℕ × ℕ)
  | [], _, _, acc => acc
  | c :: cs, idx, i, acc => resolveGo cs idx (i + 1) (if c ≤ idx then some (i, c) else acc)

def resolveIndex (cds : List ℕ) (idx : ℕ) : Option (ℕ × ℕ) := resolveGo cds idx 0 none

/-- Flat-index resolution: dataset position together with the intra-dataset
index (flat index minus the dataset start), as used at jde.py 457-458. -/
def resolveSample (counts : List ℕ) (idx : ℕ) : Option (ℕ × ℕ) :=
  (resolveIndex (buildCds counts) idx).map (fun p => (p.1, idx - p.2))

/-- The last position whose entry is at most idx, with that entry (proof
helper describing the overwrite scan). -/
def lastLE : List ℕ → ℕ → Option (ℕ × ℕ)
  | [], _ => none
  | c :: cs, idx =>
      match lastLE cs idx with
      | some p => some (p.1 + 1, p.2)
      | none => if c ≤ idx then some (0, c) else none

/-- The capacity-sized per-sample target arrays of jde.py 482-494 (the
rasterized heatmap delegates to utils.image and is not modelled). -/
structure GTArrays where
  wh : List (ℚ × ℚ)
  reg : List (ℚ × ℚ)
  ind : List ℤ
  regMask : List ℕ
  ids : List ℤ
deriving DecidableEq

def initGT (maxObjs : ℕ) : GTArrays :=
  ⟨List.replicate maxObjs ((0 : ℚ), (0 : ℚ)), List.replicate maxObjs ((0 : ℚ), (0 : ℚ)),
   List.replicate maxObjs (0 : ℤ), List.replicate maxObjs (0 : ℕ), List.replicate maxObjs (0 : ℤ)⟩

/-- Write at a fixed position of a fixed-size array; out of bounds is an
index error, as in numpy. -/
def setAt {α : Type} (l : List α) (k : ℕ) (v : α) : Except String (List α) :=
  if k < l.length then Except.ok (l.set k v) else Except.error ("index out of bounds")

/-- Read at a position of an array; out of bounds is an index error. -/
def getAt {α : Type} (l : List α) (k : ℕ) : Except String α :=
  match l.get? k with
  | some v => Except.ok v
  | none => Except.error ("index out of range")

/-- One iteration of the ground-truth encoding loop (jde.py 501-523): scale
the box to the output grid, clip the center, and on a positive-size box write
wh, ind, reg, regMask and ids at slot k of the capacity-sized arrays, in the
order of the source. The gaussian stamping (utils.image) is not modelled. -/
def encodeStep (outW outH : ℕ) (acc : GTArrays) (k : ℕ) (row : LabelRow) : Except String GTArrays :=
  let bx := npClip (row.cx * (outW : ℚ)) 0 ((outW : ℚ) - 1)
  let bY := npClip (row.cy * (outH : ℚ)) 0 ((outH : ℚ) - 1)
  let wq := row.w * (outW : ℚ)
  let hq := row.h * (outH : ℚ)
  if 0 < hq ∧ 0 < wq then
    match setAt acc.wh k (wq, hq) with
    | Except.error e => Except.error e
    | Except.ok whA =>
      match setAt acc.ind k (truncQ bY * (outW : ℤ) + truncQ bx) with
      | Except.error e => Except.error e
      | Except.ok indA =>
        match setAt acc.reg k (bx - (truncQ bx : ℚ), bY - (truncQ bY : ℚ)) with
        | Except.error e => Except.error e
        | Except.ok regA =>
          match setAt acc.regMask k 1 with
          | Except.error e => Except.error e
          | Except.ok maskA =>
            match setAt acc.ids k row.tid with
            | Except.error e => Except.error e
            | Except.ok idsA => Except.ok ⟨whA, regA, indA, maskA, idsA⟩
  else Except.ok acc

/-- The encoding loop over the object indices, reading each row and applying
one encode step; an error anywhere aborts the fetch as a raised exception
would. -/
def encodeLoop (outW outH : ℕ) (labels : List LabelRow) :
    List ℕ → GTArrays → Except String GTArrays
  | [], acc => Except.ok acc
  | k :: ks, acc =>
      match getAt labels k with
      | Except.error e => Except.error e
      | Except.ok row =>
          match encodeStep outW outH acc k row with
          | Except.error e => Except.error e
          | Except.ok acc2 => encodeLoop outW outH labels ks acc2

/-- Ground-truth encoding of one label list: the loop of jde.py 501-523 runs
over range(num objs) with num objs the full label count (jde.py 476) and the
arrays sized by the configured capacity. -/
def encodeGT (maxObjs outW outH : ℕ) (labels : List LabelRow) : Except String GTArrays :=
  encodeLoop outW outH labels (List.range labels.length) (initGT maxObjs)

/-- One iteration of the flipped-view loop body (jde.py 541-552): same grid
math as the original view, but only the flat index is written. -/
def flippedStep (outW outH : ℕ) (find : List ℤ) (k : ℕ) (row : LabelRow) : Except String (List ℤ) :=
  let bx := npClip (row.cx * (outW : ℚ)) 0 ((outW : ℚ) - 1)
  let bY := npClip (row.cy * (outH : ℚ)) 0 ((outH : ℚ) - 1)
  let wq := row.w * (outW : ℚ)
  let hq := row.h * (outH : ℚ)
  if 0 < hq ∧ 0 < wq then setAt find k (truncQ bY * (outW : ℤ) + truncQ bx)
  else Except.ok find

/-- The flipped-view loop over the object indices of the ORIGINAL view
(jde.py 539): each step reads the flipped label list at k, an out-of-bounds
read being an index error. -/
def flippedLoop (outW outH : ℕ) (flippedLabels : List LabelRow) :
    List ℕ → List ℤ → Except String (List ℤ)
  | [], find => Except.ok find
  | k :: ks, find =>
      match getAt flippedLabels k with
      | Except.error e => Except.error e
      | Except.ok row =>
          match flippedStep outW outH find k row with
          | Except.error e => Except.error e
          | Except.ok find2 => flippedLoop outW outH flippedLabels ks find2

/-- Build the flipped flat-index map (jde.py 534-552): a capacity-sized zero
array filled by the loop over range(num objs). -/
def buildFlippedInd (maxObjs outW outH numObjs : ℕ) (flippedLabels : List LabelRow) :
    Except String (List ℤ) :=
  flippedLoop outW outH flippedLabels (List.range numObjs) (List.replicate maxObjs (0 : ℤ))

/-- The explicit mismatch check of jde.py 474-475: the counts are printed
exactly when they differ. -/
def mismatchLogged (labels flippedLabels : List LabelRow) : Bool :=
  labels.length != flippedLabels.length

/-- The flipped label list produced by get-data (jde.py 169-170, 200-201,
239-242): present, with mirrored center x, only in self-supervised mode;
otherwise the entry is literally None. -/
def getDataFlippedLabels (unsup : Bool) (origRows : List LabelRow) : Option (List LabelRow) :=
  if unsup then some (origRows.map (fun r => { r with cx := 1 - r.cx })) else none

/-- The label-side fetch of JointDataset (jde.py 460-560, identity offsetting
and image tensors aside): get the flipped labels from get-data, touch the
shape of the flipped labels (jde.py 474) - an attribute error when they are
None - then encode the original view and build the flipped index map. -/
def jointGetItem (unsup : Bool) (maxObjs outW outH : ℕ) (origRows : List LabelRow) :
    Except String (GTArrays × List ℤ) :=
  match getDataFlippedLabels unsup origRows with
  | none => Except.error ("AttributeError: NoneType object has no attribute shape")
  | some fl =>
      let _mismatchPrinted := mismatchLogged origRows fl
      match encodeGT maxObjs outW outH origRows with
      | Except.error e => Except.error e
      | Except.ok arrs =>
          match buildFlippedInd maxObjs outW outH origRows.length fl with
          | Except.error e => Except.error e
          | Except.ok find => Except.ok (arrs, find)

/-- A concrete label row centered mid-image with positive size. -/
def sampleRow : LabelRow := ⟨0, 5, 1/2, 1/2, 1/2, 1/2⟩

/-- Configuration slice of MotLoss.forward relevant to the per-stage
accumulation (mot.py 58-112). -/
structure MotOpt where
  num_stacks : ℕ
  hm_weight : ℚ
  wh_weight : ℚ
  off_weight : ℚ
  id_weight : ℚ
  reg_offset : Bool
  unsup : Bool
deriving DecidableEq

/-- Raw per-stage criterion values; the criterion modules themselves
(FocalLoss, the regression criteria, the id and self-supervised losses) live
in models.losses, outside this repository slice, so their outputs enter as
values. -/
structure StageVals where
  hm : ℚ
  wh : ℚ
  off : ℚ
  id : ℚ
  selfsup : ℚ
deriving DecidableEq

/-- The loss-results accumulator of MotLoss.forward (one field per tracked
task). -/
structure LossAcc where
  hm : ℚ
  wh : ℚ
  off : ℚ
  id : ℚ
  selfsup : ℚ
deriving DecidableEq

/-- One stage of the accumulation loop (mot.py 66-112): heatmap, size and
offset sums are divided by the stage count; the supervised identity term is
added without division (mot.py 100); the self-supervised term is assigned,
overwriting earlier stages (mot.py 112). -/
def stageStep (opt : MotOpt) (hasFlipped : Bool) (acc : LossAcc) (sv : StageVals) : LossAcc :=
  { hm := acc.hm + sv.hm / (opt.num_stacks : ℚ)
    wh := if 0 < opt.wh_weight then acc.wh + sv.wh / (opt.num_stacks : ℚ) else acc.wh
    off := if opt.reg_offset = true ∧ 0 < opt.off_weight then
        acc.off + sv.off / (opt.num_stacks : ℚ)
      else acc.off
    id := if 0 < opt.id_weight ∧ opt.unsup = false then acc.id + sv.id else acc.id
    selfsup := if opt.unsup = true ∧ hasFlipped = true then sv.selfsup else acc.selfsup }

/-- The whole accumulation over the refinement stages, from a zero
accumulator. -/
def motLossResults (opt : MotOpt) (hasFlipped : Bool) (stages : List StageVals) : LossAcc :=
  stages.foldl (stageStep opt hasFlipped) ⟨0, 0, 0, 0, 0⟩

def c3Opt : MotOpt := ⟨2, 1, 1, 1, 1, true, false⟩

def c3Stage1 : StageVals := ⟨2, 2, 2, 1, 0⟩

def c3Stage2 : StageVals := ⟨4, 4, 4, 1, 0⟩

/-- The final combination of MotLoss.forward (mot.py 115-127): det loss is
the weighted sum of the accumulated heatmap, size and offset results; the
identity term is first scaled by exp(-s id) (mot.py 119-120) and the total
scales it by exp(-s id) once more (mot.py 124); the total is then halved. -/
noncomputable def motForwardTotal
    (unsup : Bool) (hmW whW offW rHm rWh rOff idSup idSelf sDet sId : ℝ) : ℝ :=
  let det_loss := hmW * rHm + whW * rWh + offW * rOff
  let id_loss := if unsup then Real.exp (-sId) * idSelf else Real.exp (-sId) * idSup
  let total := Real.exp (-sDet) * det_loss + Real.exp (-sId) * id_loss + sDet + sId
  total * 0.5

/-- Modelled from the spec: total = 0.5 (exp(-s det) det loss + exp(-s id)
id loss + s det + s id), the identity term carrying exactly one factor of
exp(-s id). -/
noncomputable def motForwardTotalSpec
    (unsup : Bool) (hmW whW offW rHm rWh rOff idSup idSelf sDet sId : ℝ) : ℝ :=
  0.5 * (Real.exp (-sDet) * (hmW * rHm + whW * rWh + offW * rOff)
    + Real.exp (-sId) * (if unsup then idSelf else idSup) + sDet + sId)

/-- Configuration slice of MotLoss construction (mot.py 20-56). -/
structure LossOpt where
  unsup : Bool
  unsup_loss : String
  reg_loss : String
  dense_wh : Bool
  norm_wh : Bool
  cat_spec_wh : Bool
deriving DecidableEq

inductive RegCrit where
  | regL1
  | regSL1
deriving DecidableEq

inductive WhCrit where
  | l1Sum
  | normRegL1
  | regWeightedL1
  | fromReg (r : RegCrit)
deriving DecidableEq

inductive SelfSupCrit where
  | ntXent
  | tripletAll
  | tripletHard
deriving DecidableEq

/-- The offset criterion selection (mot.py 31-32): l1, smooth l1, or none. -/
def mkCritReg (o : LossOpt) : Option RegCrit :=
  if o.reg_loss = "l1" then some RegCrit.regL1
  else if o.reg_loss = "sl1" then some RegCrit.regSL1
  else none

/-- The size criterion selection (mot.py 35-37): dense, normalized, class
specific, or a fallback to the offset criterion - which can be none. -/
def mkCritWh (o : LossOpt) : Option WhCrit :=
  if o.dense_wh then some WhCrit.l1Sum
  else if o.norm_wh then some WhCrit.normRegL1
  else if o.cat_spec_wh then some WhCrit.regWeightedL1
  else (mkCritReg o).map WhCrit.fromReg

/-- The self-supervised criterion selection (mot.py 46-48). -/
def mkSelfSup (o : LossOpt) : Option SelfSupCrit :=
  if o.unsup_loss = "nt_xent" then some SelfSupCrit.ntXent
  else if o.unsup_loss = "triplet_all" then some SelfSupCrit.tripletAll
  else if o.unsup_loss = "triplet_hard" then some SelfSupCrit.tripletHard
  else none

/-- The criterion slots held by a constructed MotLoss module. -/
structure MotLossState where
  crit_reg : Option RegCrit
  crit_wh : Option WhCrit
  selfSup : Option SelfSupCrit
deriving DecidableEq

/-- MotLoss construction (mot.py 20-56): the only construction-time failure
is the explicit raise for an unsupported self-supervised loss name when
self-supervision is enabled (mot.py 50-52); the criterion slots are stored
as selected, possibly none. -/
def motLossInit (o : LossOpt) : Except String MotLossState :=
  let st : MotLossState := ⟨mkCritReg o, mkCritWh o, mkSelfSup o⟩
  if o.unsup = true ∧ mkSelfSup o = none then
    Except.error ("unsupported self-supervised loss")
  else Except.ok st

def c9Opt : LossOpt := ⟨true, "nt_xent", "bogus", false, false, false⟩

def c9Bad : LossOpt := ⟨true, "bogus", "l1", false, false, false⟩

def c7Box : TBox := ⟨0, 1, 10, 10, 20, 13⟩

def c7GoodBox : TBox := ⟨0, 1, 10, 10, 30, 40⟩

def c5Files : List (List LabelRow) := [[⟨0, 3, 0, 0, 0, 0⟩], []]

/-- An integer plus a fraction below one half rounds down under round half to
even. -/
theorem pyRound_add_int_lt (m : ℤ) (r : ℚ) (h0 : 0 ≤ r) (h1 : r < 1/2) :
    pyRound ((m : ℚ) + r) = m := by
  have hf : Int.fract ((m : ℚ) + r) = r := by
    rw [Int.fract_int_add]
    exact Int.fract_eq_self.mpr ⟨h0, by linarith⟩
  rw [pyRound, if_neg (by rw [hf]; exact ne_of_lt h1), round_eq, add_assoc, Int.floor_int_add]
  have hz : ⌊r + 1/2⌋ = 0 := Int.floor_eq_zero_iff.mpr ⟨by linarith, by norm_num; linarith⟩
  omega

/-- An integer plus a fraction above one half rounds up under round half to
even. -/
theorem pyRound_add_int_gt (m : ℤ) (r : ℚ) (h0 : 1/2 < r) (h1 : r < 1) :
    pyRound ((m : ℚ) + r) = m + 1 := by
  have hf : Int.fract ((m : ℚ) + r) = r := by
    rw [Int.fract_int_add]
    exact Int.fract_eq_self.mpr ⟨by linarith, h1⟩
  rw [pyRound, if_neg (by rw [hf]; exact ne_of_gt h0), round_eq, add_assoc, Int.floor_int_add]
  have hz : ⌊r + 1/2⌋ = 1 := by
    rw [Int.floor_eq_iff]
    constructor
    · push_cast; linarith
    · push_cast; linarith
  omega

/-- Rounding n/2 - 0.1 yields the floor of n/2. -/
theorem pyRound_half_sub (n : ℤ) : pyRound ((n : ℚ) / 2 - 1/10) = ⌊(n : ℚ) / 2⌋ := by
  rcases Int.even_or_odd n with ⟨m, hm⟩ | ⟨m, hm⟩
  · subst hm
    have he : ((m + m : ℤ) : ℚ) / 2 = (m : ℚ) := by push_cast; ring
    have harg : ((m + m : ℤ) : ℚ) / 2 - 1/10 = ((m - 1 : ℤ) : ℚ) + 9/10 := by push_cast; ring
    rw [harg, pyRound_add_int_gt (m - 1) (9/10) (by norm_num) (by norm_num), he, Int.floor_intCast]
    omega
  · subst hm
    have he : ((2 * m + 1 : ℤ) : ℚ) / 2 = (m : ℚ) + 1/2 := by push_cast; ring
    have harg : ((2 * m + 1 : ℤ) : ℚ) / 2 - 1/10 = (m : ℚ) + 2/5 := by push_cast; ring
    have hfl : ⌊(m : ℚ) + 1/2⌋ = m := by
      rw [Int.floor_int_add]
      have : ⌊(1/2 : ℚ)⌋ = 0 := Int.floor_eq_zero_iff.mpr ⟨by norm_num, by norm_num⟩
      omega
    rw [harg, pyRound_add_int_lt m (2/5) (by norm_num) (by norm_num), he, hfl]

/-- Rounding n/2 + 0.1 yields the ceiling of n/2. -/
theorem pyRound_half_add (n : ℤ) : pyRound ((n : ℚ) / 2 + 1/10) = ⌈(n : ℚ) / 2⌉ := by
  rcases Int.even_or_odd n with ⟨m, hm⟩ | ⟨m, hm⟩
  · subst hm
    have he : ((m + m : ℤ) : ℚ) / 2 = (m : ℚ) := by push_cast; ring
    have harg : ((m + m : ℤ) : ℚ) / 2 + 1/10 = (m : ℚ) + 1/10 := by push_cast; ring
    rw [harg, pyRound_add_int_lt m (1/10) (by norm_num) (by norm_num), he, Int.ceil_intCast]
  · subst hm
    have he : ((2 * m + 1 : ℤ) : ℚ) / 2 = (m : ℚ) + 1/2 := by push_cast; ring
    have harg : ((2 * m + 1 : ℤ) : ℚ) / 2 + 1/10 = (m : ℚ) + 3/5 := by push_cast; ring
    have hcl : ⌈(m : ℚ) + 1/2⌉ = m + 1 := by
      rw [Int.ceil_eq_iff]
      constructor
      · push_cast; linarith
      · push_cast; linarith
    rw [harg, pyRound_add_int_gt m (3/5) (by norm_num) (by norm_num), he, hcl]

/-- Floor plus ceiling of n/2 recovers n. -/
theorem floor_add_ceil_half (n : ℤ) : ⌊(n : ℚ) / 2⌋ + ⌈(n : ℚ) / 2⌉ = n := by
  rcases Int.even_or_odd n with ⟨m, hm⟩ | ⟨m, hm⟩
  · subst hm
    have he : ((m + m : ℤ) : ℚ) / 2 = (m : ℚ) := by push_cast; ring
    rw [he, Int.floor_intCast, Int.ceil_intCast]
  · subst hm
    have he : ((2 * m + 1 : ℤ) : ℚ) / 2 = (m : ℚ) + 1/2 := by push_cast; ring
    have hfl : ⌊(m : ℚ) + 1/2⌋ = m := by
      rw [Int.floor_int_add]
      have : ⌊(1/2 : ℚ)⌋ = 0 := Int.floor_eq_zero_iff.mpr ⟨by norm_num, by norm_num⟩
      omega
    have hcl : ⌈(m : ℚ) + 1/2⌉ = m + 1 := by
      rw [Int.ceil_eq_iff]
      constructor
      · push_cast; linarith
      · push_cast; linarith
    rw [he, hfl, hcl]
    omega

/-- Claim C6: letterbox returns the scale min(target h over h, target w over
w); twice each fractional padding plus the rounded scaled extent recovers the
target extent exactly; the output shape equals the target shape; and the
integer borders split each padding as floor and ceiling around the midpoint. -/
theorem C6_letterbox_roundtrip (h w H W : ℤ) (hh : 0 < h) (hw : 0 < w) :
    (letterbox h w H W).lbScale = min ((H : ℚ) / (h : ℚ)) ((W : ℚ) / (w : ℚ))
    ∧ 2 * (letterbox h w H W).dw + (pyRound ((w : ℚ) * (letterbox h w H W).lbScale) : ℚ) = (W : ℚ)
    ∧ 2 * (letterbox h w H W).dh + (pyRound ((h : ℚ) * (letterbox h w H W).lbScale) : ℚ) = (H : ℚ)
    ∧ (letterbox h w H W).outW = W
    ∧ (letterbox h w H W).outH = H
    ∧ (letterbox h w H W).left = ⌊(letterbox h w H W).dw⌋
    ∧ (letterbox h w H W).right = ⌈(letterbox h w H W).dw⌉
    ∧ (letterbox h w H W).top = ⌊(letterbox h w H W).dh⌋
    ∧ (letterbox h w H W).bottom = ⌈(letterbox h w H W).dh⌉ := by
  have key : ∀ A B : ℤ, pyRound (((A : ℚ) - (B : ℚ)) / 2 - 1/10) = ⌊((A : ℚ) - (B : ℚ)) / 2⌋
      ∧ pyRound (((A : ℚ) - (B : ℚ)) / 2 + 1/10) = ⌈((A : ℚ) - (B : ℚ)) / 2⌉
      ∧ ⌊((A : ℚ) - (B : ℚ)) / 2⌋ + ⌈((A : ℚ) - (B : ℚ)) / 2⌉ = A - B := by
    intro A B
    have hc : ((A : ℚ) - (B : ℚ)) = ((A - B : ℤ) : ℚ) := by push_cast; ring
    rw [hc]
    exact ⟨pyRound_half_sub (A - B), pyRound_half_add (A - B), floor_add_ceil_half (A - B)⟩
  dsimp only [letterbox]
  refine ⟨rfl, by ring, by ring, ?_, ?_, ?_, ?_, ?_, ?_⟩
  · rw [(key W (pyRound ((w : ℚ) * min ((H : ℚ) / (h : ℚ)) ((W : ℚ) / (w : ℚ))))).1,
      (key W (pyRound ((w : ℚ) * min ((H : ℚ) / (h : ℚ)) ((W : ℚ) / (w : ℚ))))).2.1]
    have := (key W (pyRound ((w : ℚ) * min ((H : ℚ) / (h : ℚ)) ((W : ℚ) / (w : ℚ))))).2.2
    omega
  · rw [(key H (pyRound ((h : ℚ) * min ((H : ℚ) / (h : ℚ)) ((W : ℚ) / (w : ℚ))))).1,
      (key H (pyRound ((h : ℚ) * min ((H : ℚ) / (h : ℚ)) ((W : ℚ) / (w : ℚ))))).2.1]
    have := (key H (pyRound ((h : ℚ) * min ((H : ℚ) / (h : ℚ)) ((W : ℚ) / (w : ℚ))))).2.2
    omega
  · exact (key W (pyRound ((w : ℚ) * min ((H : ℚ) / (h : ℚ)) ((W : ℚ) / (w : ℚ))))).1
  · exact (key W (pyRound ((w : ℚ) * min ((H : ℚ) / (h : ℚ)) ((W : ℚ) / (w : ℚ))))).2.1
  · exact (key H (pyRound ((h : ℚ) * min ((H : ℚ) / (h : ℚ)) ((W : ℚ) / (w : ℚ))))).1
  · exact (key H (pyRound ((h : ℚ) * min ((H : ℚ) / (h : ℚ)) ((W : ℚ) / (w : ℚ))))).2.1

/-- Witness for C6 at a concrete 300 by 400 image and the default 608 by
1088 target: the output shape is exactly the target shape. -/
theorem C6_letterbox_roundtrip_witness :
    (letterbox 300 400 608 1088).outW = 1088 ∧ (letterbox 300 400 608 1088).outH = 608 :=
  ⟨(C6_letterbox_roundtrip 300 400 608 1088 (by norm_num) (by norm_num)).2.2.2.1,
   (C6_letterbox_roundtrip 300 400 608 1088 (by norm_num) (by norm_num)).2.2.2.2.1⟩

/-- Clipping is the identity inside the interval. -/
theorem npClip_eq_self (x lo hi : ℚ) (h1 : lo ≤ x) (h2 : x ≤ hi) : npClip x lo hi = x := by
  rw [npClip, max_eq_left h1, min_eq_left h2]

/-- With unit scale, zero angle, zero translation and zero shear the composed
transform of random-affine is the identity matrix. -/
theorem affineM_id (cX cY : ℚ) : affineM 1 0 1 0 0 0 0 cX cY = idMat3 := by
  simp only [affineM, matMul, shearMat, translateMat, rotScaleMat, idMat3, Mat3.mk.injEq]
  norm_num

/-- Under the identity matrix with reduction factor one, the envelope stage
returns the box itself. -/
theorem warpBoxRaw_id (b : TBox) (hx : b.x1 ≤ b.x2) (hy : b.y1 ≤ b.y2) :
    warpBoxRaw 1 idMat3 b = ⟨b.x1, b.y1, b.x2, b.y2⟩ := by
  have h1 : min (min b.x1 b.x2) (min b.x1 b.x2) = b.x1 := by rw [min_self, min_eq_left hx]
  have h2 : max (max b.x1 b.x2) (max b.x1 b.x2) = b.x2 := by rw [max_self, max_eq_right hx]
  have h3 : min (min b.y1 b.y2) (min b.y2 b.y1) = b.y1 := by
    rw [min_comm b.y2 b.y1, min_self, min_eq_left hy]
  have h4 : max (max b.y1 b.y2) (max b.y2 b.y1) = b.y2 := by
    rw [max_comm b.y2 b.y1, max_self, max_eq_right hy]
  simp only [warpBoxRaw, warpPt, idMat3, one_mul, zero_mul, mul_one, mul_zero, add_zero, zero_add]
  rw [h1, h2, h3, h4]
  simp only [WarpedBox.mk.injEq]
  refine ⟨by ring, by ring, by ring, by ring⟩

/-- Claim C7 (amended): a warped box is kept exactly when, after clipping,
its width and height exceed 4, its area over the (1e-16 guarded) pre-warp
area exceeds 0.1 and both guarded aspect ratios are below 10; with zero
rotation, zero shear, unit scale and zero translation the composed transform
is the identity and every in-bounds box that passes these thresholds is
returned unchanged (boxes failing a threshold are removed even then); the
angle-based reduction factor at angle zero equals 1. -/
theorem C7_affine_filter_amended (width height cX cY : ℚ) (b : TBox)
    (hx : b.x1 ≤ b.x2) (hy : b.y1 ≤ b.y2)
    (hx1 : 0 ≤ b.x1) (hx2 : b.x2 ≤ width) (hy1 : 0 ≤ b.y1) (hy2 : b.y2 ≤ height)
    (hw : 4 < b.x2 - b.x1) (hh : 4 < b.y2 - b.y1)
    (har : max ((b.x2 - b.x1) / (b.y2 - b.y1 + epsQ)) ((b.y2 - b.y1) / (b.x2 - b.x1 + epsQ))
      < 10) :
    (∀ (red : ℚ) (M : Mat3) (iw ihq : ℚ) (t : TBox),
      (processBox red M iw ihq t).isSome = true ↔
        (4 < clippedW red M iw ihq t ∧ 4 < clippedH red M iw ihq t
          ∧ 1/10 < clippedW red M iw ihq t * clippedH red M iw ihq t
              / ((t.x2 - t.x1) * (t.y2 - t.y1) + epsQ)
          ∧ max (clippedW red M iw ihq t / (clippedH red M iw ihq t + epsQ))
              (clippedH red M iw ihq t / (clippedW red M iw ihq t + epsQ)) < 10))
    ∧ affineM 1 0 1 0 0 0 0 cX cY = idMat3
    ∧ processBox 1 idMat3 width height b = some b
    ∧ randomAffineBoxes 1 idMat3 width height [b] = [b]
    ∧ reductionFactorR 0 = 1 := by
  have hiff : ∀ (red : ℚ) (M : Mat3) (iw ihq : ℚ) (t : TBox),
      (processBox red M iw ihq t).isSome = true ↔
        (4 < clippedW red M iw ihq t ∧ 4 < clippedH red M iw ihq t
          ∧ 1/10 < clippedW red M iw ihq t * clippedH red M iw ihq t
              / ((t.x2 - t.x1) * (t.y2 - t.y1) + epsQ)
          ∧ max (clippedW red M iw ihq t / (clippedH red M iw ihq t + epsQ))
              (clippedH red M iw ihq t / (clippedW red M iw ihq t + epsQ)) < 10) := by
    intro red M iw ihq t
    simp only [processBox, clippedW, clippedH]
    split_ifs with hc
    · simpa using hc
    · simpa using hc
  have hwb := warpBoxRaw_id b hx hy
  have hcb : clipBoxTo width height (warpBoxRaw 1 idMat3 b) = ⟨b.x1, b.y1, b.x2, b.y2⟩ := by
    rw [hwb]
    simp only [clipBoxTo]
    rw [npClip_eq_self b.x1 0 width hx1 (le_trans hx hx2),
      npClip_eq_self b.y1 0 height hy1 (le_trans hy hy2),
      npClip_eq_self b.x2 0 width (le_trans hx1 hx) hx2,
      npClip_eq_self b.y2 0 height (le_trans hy1 hy) hy2]
  have harea : 1/10 < (b.x2 - b.x1) * (b.y2 - b.y1)
      / ((b.x2 - b.x1) * (b.y2 - b.y1) + epsQ) := by
    have h0 : (16 : ℚ) < (b.x2 - b.x1) * (b.y2 - b.y1) := by nlinarith
    have heps0 : (0 : ℚ) < epsQ := by norm_num [epsQ]
    have heps1 : epsQ < 1 := by norm_num [epsQ]
    rw [lt_div_iff₀ (by linarith)]
    linarith
  have hsome : processBox 1 idMat3 width height b = some b := by
    simp only [processBox, hcb]
    split_ifs with hcond
    · rfl
    · exact absurd ⟨hw, hh, harea, har⟩ hcond
  refine ⟨hiff, affineM_id cX cY, hsome, ?_, ?_⟩
  · simp [randomAffineBoxes, hsome]
  · simp [reductionFactorR, Real.sin_zero, Real.cos_zero]

/-- Counterexample for C7 as stated: under the identity transform, an
in-bounds 10 by 3 box is removed from the output rather than returned
unchanged, because its post-clip height is at most 4. -/
theorem C7_affine_filter_counterexample :
    (0 : ℚ) ≤ c7Box.x1 ∧ c7Box.x2 ≤ 100 ∧ (0 : ℚ) ≤ c7Box.y1 ∧ c7Box.y2 ≤ 100
    ∧ affineM 1 0 1 0 0 0 0 50 50 = idMat3
    ∧ randomAffineBoxes 1 (affineM 1 0 1 0 0 0 0 50 50) 100 100 [c7Box] = [] := by
  have hwb := warpBoxRaw_id c7Box (by norm_num [c7Box]) (by norm_num [c7Box])
  have hnone : processBox 1 idMat3 100 100 c7Box = none := by
    simp only [processBox, hwb]
    norm_num [clipBoxTo, npClip, c7Box, epsQ, min_def, max_def]
  refine ⟨by norm_num [c7Box], by norm_num [c7Box], by norm_num [c7Box], by norm_num [c7Box],
    affineM_id 50 50, ?_⟩
  rw [affineM_id 50 50]
  simp [randomAffineBoxes, hnone]

/-- Witness for C7 at a concrete in-bounds box passing all thresholds: under
the identity transform it is returned unchanged. -/
theorem C7_affine_filter_witness :
    processBox 1 idMat3 100 100 c7GoodBox = some c7GoodBox :=
  (C7_affine_filter_amended 100 100 0 0 c7GoodBox (by norm_num [c7GoodBox])
    (by norm_num [c7GoodBox]) (by norm_num [c7GoodBox]) (by norm_num [c7GoodBox])
    (by norm_num [c7GoodBox]) (by norm_num [c7GoodBox]) (by norm_num [c7GoodBox])
    (by norm_num [c7GoodBox]) (by norm_num [c7GoodBox, epsQ])).2.2.1

/-- The running column maximum equals the list maximum folded into the seed. -/
theorem fileColMaxGo_eq : ∀ (rs : List LabelRow) (m : ℤ),
    fileColMaxGo rs m = (match listMaxOpt (rs.map LabelRow.tid) with
      | none => m
      | some x => max m x)
  | [], m => rfl
  | r :: rs, m => by
    rw [fileColMaxGo, fileColMaxGo_eq rs (max m r.tid)]
    simp only [List.map_cons, listMaxOpt]
    cases listMaxOpt (rs.map LabelRow.tid) with
    | none => rfl
    | some x => simp [max_assoc]

/-- The per-file maximum of the source equals the plain list maximum of the
identity column. -/
theorem fileMax_eq (f : List LabelRow) : fileMax f = listMaxOpt (f.map LabelRow.tid) := by
  cases f with
  | nil => rfl
  | cons r rs =>
    rw [fileMax, fileColMaxGo_eq rs r.tid]
    simp only [List.map_cons, listMaxOpt]
    cases listMaxOpt (rs.map LabelRow.tid) with
    | none => rfl
    | some x => rfl

/-- The conditional update of the scan is the binary maximum. -/
theorem ifGtMax (m mx : ℤ) : (if m > mx then m else mx) = max mx m := by
  rcases le_or_lt m mx with hc | hc
  · rw [if_neg (not_lt.mpr hc), max_eq_left hc]
  · rw [if_pos hc, max_eq_right (le_of_lt hc)]

/-- The dataset scan of the source computes the maximum observed identity
folded into the seed. -/
theorem dsMaxIndexGo_eq : ∀ (files : List (List LabelRow)) (mx : ℤ),
    dsMaxIndexGo files mx = (match maxObserved files with
      | none => mx
      | some M => max mx M)
  | [], mx => rfl
  | f :: fs, mx => by
    rw [dsMaxIndexGo, dsMaxIndexGo_eq fs _, fileMax_eq f]
    simp only [maxObserved]
    cases hA : listMaxOpt (f.map LabelRow.tid) with
    | none => cases hB : maxObserved fs <;> rfl
    | some a =>
      cases hB : maxObserved fs with
      | none =>
        dsimp only
        rw [ifGtMax a mx]
      | some B =>
        dsimp only
        rw [ifGtMax a mx, max_assoc]

/-- A list maximum is an element of the list. -/
theorem listMaxOpt_mem : ∀ (l : List ℤ) (a : ℤ), listMaxOpt l = some a → a ∈ l
  | [], a => by simp [listMaxOpt]
  | x :: xs, a => by
    simp only [listMaxOpt]
    cases h : listMaxOpt xs with
    | none =>
      intro he
      simp only [Option.some.injEq] at he
      subst he
      exact List.mem_cons_self x xs
    | some m =>
      intro he
      simp only [Option.some.injEq] at he
      rcases max_choice x m with hc | hc
      · rw [← he, hc]
        exact List.mem_cons_self x xs
      · rw [← he, hc]
        exact List.mem_cons_of_mem x (listMaxOpt_mem xs m h)

/-- When every observed identity is at least -1, so is the maximum observed
identity. -/
theorem maxObserved_ge : ∀ (files : List (List LabelRow)),
    (∀ f ∈ files, ∀ r ∈ f, -1 ≤ r.tid) → ∀ M : ℤ, maxObserved files = some M → -1 ≤ M
  | [], _, M => by simp [maxObserved]
  | f :: fs, hvalid, M => by
    have hf : ∀ a : ℤ, listMaxOpt (f.map LabelRow.tid) = some a → -1 ≤ a := by
      intro a ha
      rcases List.mem_map.mp (listMaxOpt_mem _ a ha) with ⟨r, hr, hra⟩
      rw [← hra]
      exact hvalid f (List.mem_cons_self f fs) r hr
    have hfs : ∀ B : ℤ, maxObserved fs = some B → -1 ≤ B :=
      maxObserved_ge fs (fun g hg r hr => hvalid g (List.mem_cons_of_mem f hg) r hr)
    simp only [maxObserved]
    cases hA : listMaxOpt (f.map LabelRow.tid) with
    | none =>
      cases hB : maxObserved fs with
      | none => simp
      | some B =>
        intro he
        simp only [Option.some.injEq] at he
        rw [← he]
        exact hfs B hB
    | some a =>
      cases hB : maxObserved fs with
      | none =>
        intro he
        simp only [Option.some.injEq] at he
        rw [← he]
        exact hf a hA
      | some B =>
        intro he
        simp only [Option.some.injEq] at he
        rw [← he]
        exact le_trans (hf a hA) (le_max_left a B)

/-- The start-offset scan preserves the length. -/
theorem tidStartsGo_length : ∀ (counts : List ℤ) (n : ℤ),
    (tidStartsGo counts n).length = counts.length
  | [], _ => rfl
  | v :: vs, n => by
    rw [tidStartsGo, List.length_cons, List.length_cons, tidStartsGo_length vs (n + v)]

/-- Each entry of the start-offset scan is the seed plus the exclusive prefix
sum of the counts before it. -/
theorem tidStartsGo_getD : ∀ (counts : List ℤ) (n : ℤ) (i : ℕ), i < counts.length →
    (tidStartsGo counts n).getD i 0 = n + (counts.take i).sum
  | [], n, i => by simp
  | v :: vs, n, 0 => by simp [tidStartsGo]
  | v :: vs, n, i + 1 => by
    intro hi
    rw [tidStartsGo, List.getD_cons_succ, tidStartsGo_getD vs (n + v) i (by
      simpa using Nat.lt_of_succ_lt_succ hi)]
    rw [List.take_succ_cons, List.sum_cons]
    ring

/-- Left fold of integer addition from a seed is the seed plus the sum. -/
theorem foldl_add_int : ∀ (l : List ℤ) (n : ℤ), l.foldl (· + ·) n = n + l.sum
  | [], n => by simp
  | x :: xs, n => by
    rw [List.foldl_cons, foldl_add_int xs (n + x), List.sum_cons]
    ring

/-- Claim C5: each dataset's local identity count is the maximum observed
identity plus one, or zero when no identity is observed; the global offsets
are the exclusive prefix sums of the local counts in registration order (of
the same length, the first being zero); the total identity count nID is the
sum of the local counts plus one; and the sentinel identity -1 is never
offset by the per-sample remapping. -/
theorem C5_identity_space (files : List (List LabelRow)) (counts : List ℤ) (i : ℕ) (start : ℤ)
    (hvalid : ∀ f ∈ files, ∀ r ∈ f, -1 ≤ r.tid) (hi : i < counts.length) :
    datasetTidNum files = (match maxObserved files with | none => 0 | some m => m + 1)
    ∧ (tidStarts counts).length = counts.length
    ∧ (tidStarts counts).getD i 0 = (counts.take i).sum
    ∧ jdeNID counts = counts.sum + 1
    ∧ offsetId start (-1) = -1 := by
  refine ⟨?_, tidStartsGo_length counts 0, ?_, ?_, ?_⟩
  · rw [datasetTidNum, dsMaxIndexGo_eq]
    cases hM : maxObserved files with
    | none => norm_num
    | some M =>
      have hge := maxObserved_ge files hvalid M hM
      dsimp only
      rw [max_eq_right hge]
  · rw [tidStarts, tidStartsGo_getD counts 0 i hi, zero_add]
  · rw [jdeNID, foldl_add_int, zero_add]
  · simp [offsetId]

/-- Witness for C5 at a concrete two-dataset layout: the first dataset
observes maximum identity 3, so its local count is 4. -/
theorem C5_identity_space_witness :
    datasetTidNum c5Files = (match maxObserved c5Files with | none => 0 | some m => m + 1) :=
  (C5_identity_space c5Files [3, 5] 1 7 (by decide) (by decide)).1

/-- The overwrite scan of the source equals the last-hit search, with indices
offset by the running counter. -/
theorem resolveGo_eq : ∀ (cds : List ℕ) (idx i0 : ℕ) (acc : Option (ℕ × ℕ)),
    resolveGo cds idx i0 acc = (match lastLE cds idx with
      | none => acc
      | some p => some (i0 + p.1, p.2))
  | [], idx, i0, acc => rfl
  | c :: cs, idx, i0, acc => by
    rw [resolveGo, resolveGo_eq cs idx (i0 + 1) _]
    simp only [lastLE]
    cases hL : lastLE cs idx with
    | some p =>
      dsimp only
      have harith : i0 + 1 + p.1 = i0 + (p.1 + 1) := by omega
      rw [harith]
    | none =>
      by_cases hc : c ≤ idx
      · simp [hc]
      · simp only [if_neg hc]

/-- A scan with no hit means every entry exceeds the index. -/
theorem lastLE_none : ∀ (cds : List ℕ) (idx : ℕ), lastLE cds idx = none →
    ∀ k, k < cds.length → idx < cds.getD k 0
  | [], idx => by simp
  | c :: cs, idx => by
    simp only [lastLE]
    cases hL : lastLE cs idx with
    | some p => intro he; exact absurd he (by simp)
    | none =>
      by_cases hc : c ≤ idx
      · rw [if_pos hc]
        intro he
        exact absurd he (by simp)
      · rw [if_neg hc]
        intro _ k hk
        cases k with
        | zero => simpa using Nat.lt_of_not_le hc
        | succ k =>
          rw [List.getD_cons_succ]
          exact lastLE_none cs idx hL k (by simpa using Nat.lt_of_succ_lt_succ hk)

/-- The last hit of the scan: position in range, entry value, the hit bound,
and every later entry exceeding the index. -/
theorem lastLE_some : ∀ (cds : List ℕ) (idx j s : ℕ), lastLE cds idx = some (j, s) →
    j < cds.length ∧ cds.getD j 0 = s ∧ s ≤ idx ∧
      ∀ k, j < k → k < cds.length → idx < cds.getD k 0
  | [], idx, j, s => by simp [lastLE]
  | c :: cs, idx, j, s => by
    simp only [lastLE]
    cases hL : lastLE cs idx with
    | some p =>
      intro he
      have hj : p.1 + 1 = j ∧ p.2 = s := by simpa using he
      obtain ⟨hj1, hj2⟩ := hj
      obtain ⟨ih1, ih2, ih3, ih4⟩ := lastLE_some cs idx p.1 p.2 (by rw [hL])
      refine ⟨?_, ?_, ?_, ?_⟩
      · simp only [List.length_cons]
        omega
      · rw [← hj1, List.getD_cons_succ, ih2, hj2]
      · rw [← hj2]
        exact ih3
      · intro k hk1 hk2
        cases k with
        | zero => omega
        | succ k =>
          rw [List.getD_cons_succ]
          refine ih4 k (by omega) ?_
          simp only [List.length_cons] at hk2
          omega
    | none =>
      by_cases hc : c ≤ idx
      · rw [if_pos hc]
        intro he
        have hj : 0 = j ∧ c = s := by simpa using he
        obtain ⟨hj1, hj2⟩ := hj
        refine ⟨by simp only [List.length_cons]; omega, ?_, ?_, ?_⟩
        · rw [← hj1, List.getD_cons_zero, hj2]
        · rw [← hj2]
          exact hc
        · intro k hk1 hk2
          cases k with
          | zero => omega
          | succ k =>
            rw [List.getD_cons_succ]
            refine lastLE_none cs idx hL k ?_
            simp only [List.length_cons] at hk2
            omega
      · rw [if_neg hc]
        intro he
        exact absurd he (by simp)

/-- When the head entry is within the index, the scan finds a hit. -/
theorem lastLE_isSome_of_head (c : ℕ) (cs : List ℕ) (idx : ℕ) (hc : c ≤ idx) :
    ∃ p : ℕ × ℕ, lastLE (c :: cs) idx = some p := by
  simp only [lastLE]
  cases lastLE cs idx with
  | some p => exact ⟨(p.1 + 1, p.2), rfl⟩
  | none => exact ⟨(0, c), by rw [if_pos hc]⟩

/-- The cumulative-start scan preserves the length. -/
theorem buildCdsGo_length : ∀ (counts : List ℕ) (n : ℕ),
    (buildCdsGo counts n).length = counts.length
  | [], _ => rfl
  | c :: cs, n => by
    rw [buildCdsGo, List.length_cons, List.length_cons, buildCdsGo_length cs (n + c)]

/-- Each cumulative start is the seed plus the exclusive prefix sum of the
sample counts before it. -/
theorem buildCdsGo_getD : ∀ (counts : List ℕ) (n i : ℕ), i < counts.length →
    (buildCdsGo counts n).getD i 0 = n + (counts.take i).sum
  | [], n, i => by simp
  | c :: cs, n, 0 => by simp [buildCdsGo]
  | c :: cs, n, i + 1 => by
    intro hi
    rw [buildCdsGo, List.getD_cons_succ, buildCdsGo_getD cs (n + c) i (by
      simpa using Nat.lt_of_succ_lt_succ hi), List.take_succ_cons, List.sum_cons]
    omega

/-- Claim C8: every flat index resolves to the last dataset whose cumulative
start (the exclusive prefix sum of sample counts in registration order) is at
most the index, with the intra-dataset position being index minus start; a
dataset is always found since the first start is zero; and on counts 3 and 5
the indices 0 to 2 resolve into the first dataset and 3 to 7 into the second
at positions 0 to 4. -/
theorem C8_joint_indexer (counts : List ℕ) (idx : ℕ) (hne : counts ≠ []) :
    (∃ i s, resolveIndex (buildCds counts) idx = some (i, s)
      ∧ resolveSample counts idx = some (i, idx - s)
      ∧ i < counts.length
      ∧ s = (counts.take i).sum
      ∧ s ≤ idx
      ∧ ∀ j, j < counts.length → (counts.take j).sum ≤ idx → j ≤ i)
    ∧ (∀ k, k < 3 → resolveSample [3, 5] k = some (0, k))
    ∧ (∀ k, k < 8 → 3 ≤ k → resolveSample [3, 5] k = some (1, k - 3)) := by
  refine ⟨?_, by decide, by decide⟩
  obtain ⟨c, cs, rfl⟩ := List.exists_cons_of_ne_nil hne
  have hhead : buildCds (c :: cs) = 0 :: buildCdsGo cs (0 + c) := rfl
  obtain ⟨p, hp⟩ := lastLE_isSome_of_head 0 (buildCdsGo cs (0 + c)) idx (Nat.zero_le idx)
  have hp2 : lastLE (buildCds (c :: cs)) idx = some (p.1, p.2) := by rw [hhead, hp]
  obtain ⟨hlen, hgetD, hle, hmax⟩ := lastLE_some (buildCds (c :: cs)) idx p.1 p.2 hp2
  have hlenEq : (buildCds (c :: cs)).length = (c :: cs).length := buildCdsGo_length (c :: cs) 0
  have hlen2 : p.1 < (c :: cs).length := by rw [← hlenEq]; exact hlen
  have hres : resolveIndex (buildCds (c :: cs)) idx = some (p.1, p.2) := by
    rw [resolveIndex, resolveGo_eq, hp2]
    dsimp only
    rw [Nat.zero_add]
  have hb : buildCds (c :: cs) = buildCdsGo (c :: cs) 0 := rfl
  refine ⟨p.1, p.2, hres, ?_, hlen2, ?_, hle, ?_⟩
  · rw [resolveSample, hres]
    rfl
  · rw [← hgetD, hb, buildCdsGo_getD (c :: cs) 0 p.1 hlen2, Nat.zero_add]
  · intro j hj hsum
    by_contra hcon
    have hgt : p.1 < j := by omega
    have hbig := hmax j hgt (by rw [hlenEq]; exact hj)
    rw [hb, buildCdsGo_getD (c :: cs) 0 j hj, Nat.zero_add] at hbig
    omega

/-- Witness for C8: with sample counts 3 and 5, flat index 4 resolves to the
second dataset at position 1. -/
theorem C8_joint_indexer_witness : resolveSample [3, 5] 4 = some (1, 1) := by
  have h := (C8_joint_indexer [3, 5] 4 (by decide)).2.2
  exact h 4 (by decide) (by decide)

/-- Claim C10: with self-supervision disabled, get-data returns None for the
flipped labels, and the unconditional shape access of the joint fetch then
fails on None, so every supervised-mode fetch errors instead of returning an
encoded target bundle. -/
theorem C10_supervised_fetch_fails (maxObjs outW outH : ℕ) (origRows : List LabelRow) :
    jointGetItem false maxObjs outW outH origRows =
      Except.error ("AttributeError: NoneType object has no attribute shape") := rfl

/-- Claim C1 evaluated at the failing input: in self-supervised mode with
capacity one and a two-object label list of positive sizes, the fetch aborts
with an index error from the capacity-sized array write - the encoding does
not truncate at capacity and the call does not complete. -/
theorem C1_capacity_overflow_eval :
    jointGetItem true 1 10 10 [sampleRow, sampleRow] =
      Except.error ("index out of bounds") := by
  have hr : List.range 2 = [0, 1] := by decide
  have hfl : getDataFlippedLabels true [sampleRow, sampleRow] =
      some ([sampleRow, sampleRow].map (fun r => { r with cx := 1 - r.cx })) := rfl
  have henc : encodeGT 1 10 10 [sampleRow, sampleRow] = Except.error ("index out of bounds") := by
    simp only [encodeGT, List.length_cons, List.length_nil, Nat.zero_add, hr]
    norm_num [encodeLoop, encodeStep, getAt, setAt, initGT, sampleRow, npClip, List.set]
  simp only [jointGetItem, hfl, henc]

/-- Counterexample for C4 as stated: with two original objects but a one-row
flipped label list (capacity two), the mismatch is logged, yet building the
flipped flat-index map performs an out-of-bounds read of the shorter flipped
list and aborts with an index error. -/
theorem C4_flipped_mismatch_counterexample :
    mismatchLogged [sampleRow, sampleRow] [sampleRow] = true
    ∧ buildFlippedInd 2 10 10 2 [sampleRow] = Except.error ("index out of range") := by
  constructor
  · decide
  · have hr : List.range 2 = [0, 1] := by decide
    simp only [buildFlippedInd, hr]
    norm_num [flippedLoop, flippedStep, getAt, setAt, npClip, sampleRow, List.set,
      List.replicate_succ]

/-- A read within the list length succeeds. -/
theorem getAt_ok {α : Type} (l : List α) (k : ℕ) (hk : k < l.length) :
    ∃ v, getAt l k = Except.ok v := by
  cases h : l.get? k with
  | none =>
    have := List.get?_eq_none.mp h
    omega
  | some v => exact ⟨v, by simp only [getAt, h]⟩

/-- A write within the list length succeeds. -/
theorem setAt_ok {α : Type} (l : List α) (k : ℕ) (v : α) (hk : k < l.length) :
    setAt l k v = Except.ok (l.set k v) := by
  rw [setAt, if_pos hk]

/-- A flipped-view step with an in-range slot succeeds and preserves the
array length. -/
theorem flippedStep_ok (outW outH : ℕ) (find : List ℤ) (k : ℕ) (row : LabelRow)
    (hk : k < find.length) :
    ∃ r, flippedStep outW outH find k row = Except.ok r ∧ r.length = find.length := by
  simp only [flippedStep]
  split_ifs with hc
  · refine ⟨find.set k _, setAt_ok find k _ hk, ?_⟩
    simp
  · exact ⟨find, rfl, rfl⟩

/-- The flipped-view loop succeeds when every visited index is inside both
the flipped label list and the index array, preserving the array length. -/
theorem flippedLoop_ok (outW outH : ℕ) (fl : List LabelRow) :
    ∀ (ks : List ℕ) (find : List ℤ),
      (∀ k ∈ ks, k < fl.length) → (∀ k ∈ ks, k < find.length) →
      ∃ r, flippedLoop outW outH fl ks find = Except.ok r ∧ r.length = find.length
  | [], find, _, _ => ⟨find, rfl, rfl⟩
  | k :: ks, find, h1, h2 => by
    obtain ⟨row, hrow⟩ := getAt_ok fl k (h1 k (List.mem_cons_self k ks))
    obtain ⟨f2, hf2, hlen2⟩ := flippedStep_ok outW outH find k row (h2 k (List.mem_cons_self k ks))
    obtain ⟨r, hrr, hlenr⟩ := flippedLoop_ok outW outH fl ks f2
      (fun j hj => h1 j (List.mem_cons_of_mem k hj))
      (fun j hj => by rw [hlen2]; exact h2 j (List.mem_cons_of_mem k hj))
    refine ⟨r, ?_, by rw [hlenr, hlen2]⟩
    simp only [flippedLoop, hrow, hf2]
    exact hrr

/-- Claim C4 (amended): the count mismatch is checked and logged exactly when
the original and flipped label counts differ, but the check does not guard
the loop - the flipped flat-index map construction is only safe from
out-of-bounds access when the flipped list covers the original object count
and the count fits the capacity, in which case it completes with a
capacity-sized array. -/
theorem C4_flipped_mismatch_amended (labels fl : List LabelRow)
    (maxObjs outW outH numObjs : ℕ)
    (h1 : numObjs ≤ fl.length) (h2 : numObjs ≤ maxObjs) :
    (mismatchLogged labels fl = true ↔ labels.length ≠ fl.length)
    ∧ ∃ r, buildFlippedInd maxObjs outW outH numObjs fl = Except.ok r ∧ r.length = maxObjs := by
  constructor
  · simp [mismatchLogged]
  · obtain ⟨r, hrr, hlen⟩ := flippedLoop_ok outW outH fl (List.range numObjs)
      (List.replicate maxObjs 0)
      (fun k hk => lt_of_lt_of_le (List.mem_range.mp hk) h1)
      (fun k hk => by rw [List.length_replicate]; exact lt_of_lt_of_le (List.mem_range.mp hk) h2)
    exact ⟨r, hrr, by rw [hlen, List.length_replicate]⟩

/-- Witness for C4 at a concrete consistent pair: one object, one flipped
row, capacity 128 - the flipped index map is built without error. -/
theorem C4_flipped_mismatch_witness :
    ∃ r, buildFlippedInd 128 10 10 1 [sampleRow] = Except.ok r ∧ r.length = 128 :=
  (C4_flipped_mismatch_amended [sampleRow] [sampleRow] 128 10 10 1 (by decide) (by decide)).2

/-- The accumulated heatmap loss is the per-stage sum divided by the stage
count, folded onto the seed. -/
theorem foldl_stageStep_hm (opt : MotOpt) (hf : Bool) :
    ∀ (stages : List StageVals) (acc : LossAcc),
      (stages.foldl (stageStep opt hf) acc).hm
        = acc.hm + (stages.map StageVals.hm).sum / (opt.num_stacks : ℚ)
  | [], acc => by simp
  | sv :: rest, acc => by
    rw [List.foldl_cons, foldl_stageStep_hm opt hf rest _, List.map_cons, List.sum_cons]
    simp only [stageStep]
    ring

/-- The accumulated size loss: per-stage sum divided by the stage count when
the size weight is positive, untouched otherwise. -/
theorem foldl_stageStep_wh (opt : MotOpt) (hf : Bool) :
    ∀ (stages : List StageVals) (acc : LossAcc),
      (stages.foldl (stageStep opt hf) acc).wh
        = acc.wh + (if 0 < opt.wh_weight then
            (stages.map StageVals.wh).sum / (opt.num_stacks : ℚ) else 0)
  | [], acc => by by_cases hW : 0 < opt.wh_weight <;> simp [hW]
  | sv :: rest, acc => by
    rw [List.foldl_cons, foldl_stageStep_wh opt hf rest _, List.map_cons, List.sum_cons]
    by_cases hW : 0 < opt.wh_weight
    · simp only [stageStep, if_pos hW]
      ring
    · simp [stageStep, hW]

/-- The accumulated offset loss: per-stage sum divided by the stage count
when offsets are enabled with positive weight, untouched otherwise. -/
theorem foldl_stageStep_off (opt : MotOpt) (hf : Bool) :
    ∀ (stages : List StageVals) (acc : LossAcc),
      (stages.foldl (stageStep opt hf) acc).off
        = acc.off + (if opt.reg_offset = true ∧ 0 < opt.off_weight then
            (stages.map StageVals.off).sum / (opt.num_stacks : ℚ) else 0)
  | [], acc => by by_cases hO : opt.reg_offset = true ∧ 0 < opt.off_weight <;> simp [hO]
  | sv :: rest, acc => by
    rw [List.foldl_cons, foldl_stageStep_off opt hf rest _, List.map_cons, List.sum_cons]
    by_cases hO : opt.reg_offset = true ∧ 0 < opt.off_weight
    · simp only [stageStep, if_pos hO]
      ring
    · simp [stageStep, hO]

/-- The accumulated supervised identity loss: the plain per-stage sum - with
no stage-count division - when the identity weight is positive in supervised
mode, untouched otherwise. -/
theorem foldl_stageStep_id (opt : MotOpt) (hf : Bool) :
    ∀ (stages : List StageVals) (acc : LossAcc),
      (stages.foldl (stageStep opt hf) acc).id
        = acc.id + (if 0 < opt.id_weight ∧ opt.unsup = false then
            (stages.map StageVals.id).sum else 0)
  | [], acc => by by_cases hI : 0 < opt.id_weight ∧ opt.unsup = false <;> simp [hI]
  | sv :: rest, acc => by
    rw [List.foldl_cons, foldl_stageStep_id opt hf rest _, List.map_cons, List.sum_cons]
    by_cases hI : 0 < opt.id_weight ∧ opt.unsup = false
    · simp only [stageStep, if_pos hI]
      ring
    · simp [stageStep, hI]

/-- Counterexample for C3 as stated: with two stages each contributing
supervised identity loss 1, the accumulated identity result is 2, not the
stage-count-divided value 1 - the identity term is summed without division. -/
theorem C3_stage_accumulation_counterexample :
    (motLossResults c3Opt false [c3Stage1, c3Stage2]).id ≠
      (([c3Stage1, c3Stage2].map StageVals.id).sum) / ((c3Opt.num_stacks : ℕ) : ℚ) := by
  norm_num [motLossResults, stageStep, c3Opt, c3Stage1, c3Stage2, List.foldl_cons,
    List.foldl_nil]

/-- Claim C3 (amended): the heatmap term, the size term (when weighted) and
the offset term (when enabled and weighted) are accumulated over the stages
with each stage divided by the stage count; the supervised identity term is
summed over the stages without any division; and in self-supervised mode
with a flipped view the self-supervised term is overwritten each stage,
ending as the last stage's undivided value. -/
theorem C3_stage_accumulation_amended (opt : MotOpt) (hf : Bool) (stages : List StageVals)
    (hlen : stages.length = opt.num_stacks) :
    (motLossResults opt hf stages).hm = (stages.map StageVals.hm).sum / (opt.num_stacks : ℚ)
    ∧ (0 < opt.wh_weight → (motLossResults opt hf stages).wh
        = (stages.map StageVals.wh).sum / (opt.num_stacks : ℚ))
    ∧ (opt.reg_offset = true → 0 < opt.off_weight → (motLossResults opt hf stages).off
        = (stages.map StageVals.off).sum / (opt.num_stacks : ℚ))
    ∧ (0 < opt.id_weight → opt.unsup = false → (motLossResults opt hf stages).id
        = (stages.map StageVals.id).sum)
    ∧ (opt.unsup = true → hf = true → ∀ (pre : List StageVals) (sv : StageVals),
        stages = pre ++ [sv] → (motLossResults opt hf stages).selfsup = sv.selfsup) := by
  refine ⟨?_, ?_, ?_, ?_, ?_⟩
  · rw [motLossResults, foldl_stageStep_hm]
    simp
  · intro hW
    rw [motLossResults, foldl_stageStep_wh, if_pos hW]
    simp
  · intro hR hO
    rw [motLossResults, foldl_stageStep_off, if_pos (And.intro hR hO)]
    simp
  · intro hI hU
    rw [motLossResults, foldl_stageStep_id, if_pos (And.intro hI hU)]
    simp
  · intro hU hF pre sv hst
    subst hst
    rw [motLossResults, List.foldl_append, List.foldl_cons, List.foldl_nil]
    simp [stageStep, hU, hF]

/-- Witness for C3 at a concrete two-stage configuration: the heatmap result
is the stage sum divided by the stage count. -/
theorem C3_stage_accumulation_witness :
    (motLossResults c3Opt false [c3Stage1, c3Stage2]).hm =
      (([c3Stage1, c3Stage2].map StageVals.hm).sum) / (c3Opt.num_stacks : ℚ) :=
  (C3_stage_accumulation_amended c3Opt false [c3Stage1, c3Stage2] (by decide)).1

/-- Counterexample for C2 as stated: at s det 0, s id 1, zero detection loss
and raw identity loss 1, the code total differs from the spec formula,
because the identity term is scaled by exp of minus s id twice. -/
theorem C2_total_loss_counterexample :
    motForwardTotal false 1 1 1 0 0 0 1 0 0 1 ≠
      motForwardTotalSpec false 1 1 1 0 0 0 1 0 0 1 := by
  intro hEq
  simp only [motForwardTotal, motForwardTotalSpec, Bool.false_eq_true, if_false] at hEq
  norm_num [Real.exp_zero] at hEq
  have h3 : Real.exp (-1) * Real.exp (-1) = Real.exp (-1) := by linarith
  have h4 : Real.exp (-1) = 1 :=
    mul_left_cancel₀ (Real.exp_ne_zero (-1)) (by rw [mul_one]; exact h3)
  have h5 : (-1 : ℝ) = 0 := Real.exp_injective (by rw [h4, Real.exp_zero])
  norm_num at h5

/-- Claim C2 (amended): the scalar returned by the forward combination equals
0.5 times (exp(-s det) times the weighted detection sum, plus exp(-s id)
squared times the raw identity term - the selected supervised or
self-supervised accumulated loss - plus s det plus s id): the identity term
carries two factors of exp(-s id), not one. -/
theorem C2_total_loss_amended
    (unsup : Bool) (hmW whW offW rHm rWh rOff idSup idSelf sDet sId : ℝ) :
    motForwardTotal unsup hmW whW offW rHm rWh rOff idSup idSelf sDet sId =
      0.5 * (Real.exp (-sDet) * (hmW * rHm + whW * rWh + offW * rOff)
        + Real.exp (-sId) * Real.exp (-sId) * (if unsup then idSelf else idSup)
        + sDet + sId) := by
  cases unsup <;> simp only [motForwardTotal, Bool.false_eq_true, if_false, if_true] <;> ring

/-- The self-supervised criterion is unresolved exactly when the configured
name is none of the three supported ones. -/
theorem mkSelfSup_eq_none_iff (o : LossOpt) :
    mkSelfSup o = none ↔
      (o.unsup_loss ≠ "nt_xent" ∧ o.unsup_loss ≠ "triplet_all"
        ∧ o.unsup_loss ≠ "triplet_hard") := by
  rw [mkSelfSup]
  split_ifs with h1 h2 h3
  · simp [h1]
  · simp [h2]
  · simp [h3]
  · simp [h1, h2, h3]

/-- Counterexample for C9 as stated: a configuration whose size-loss options
resolve to no concrete regression criterion (dense, norm and class-specific
all off, offset loss name unsupported) constructs successfully - no error is
raised at construction for the unsupported size-loss combination. -/
theorem C9_init_counterexample :
    motLossInit c9Opt = Except.ok ⟨none, none, some SelfSupCrit.ntXent⟩
    ∧ mkCritWh c9Opt = none := by
  constructor
  · simp [motLossInit, mkCritReg, mkCritWh, mkSelfSup, c9Opt]
  · simp [mkCritWh, mkCritReg, c9Opt]

/-- Claim C9 (amended): MotLoss construction fails exactly when
self-supervision is enabled with a loss name other than the three supported
ones; in every other configuration - including any unsupported size-loss
combination, which merely leaves the size criterion unresolved - construction
succeeds, deferring the size-loss failure past construction. -/
theorem C9_init_amended (o : LossOpt) :
    ((∃ e, motLossInit o = Except.error e) ↔
      (o.unsup = true ∧ o.unsup_loss ≠ "nt_xent" ∧ o.unsup_loss ≠ "triplet_all"
        ∧ o.unsup_loss ≠ "triplet_hard"))
    ∧ (o.unsup = false → motLossInit o = Except.ok ⟨mkCritReg o, mkCritWh o, mkSelfSup o⟩)
    ∧ (o.unsup = true → mkSelfSup o ≠ none →
        motLossInit o = Except.ok ⟨mkCritReg o, mkCritWh o, mkSelfSup o⟩) := by
  refine ⟨?_, ?_, ?_⟩
  · simp only [motLossInit]
    split_ifs with hc
    · constructor
      · intro _
        exact ⟨hc.1, (mkSelfSup_eq_none_iff o).mp hc.2⟩
      · intro _
        exact ⟨"unsupported self-supervised loss", rfl⟩
    · constructor
      · intro he
        obtain ⟨e, he⟩ := he
        cases he
      · intro hcond
        exact absurd ⟨hcond.1, (mkSelfSup_eq_none_iff o).mpr hcond.2⟩ hc
  · intro hu
    simp only [motLossInit]
    rw [if_neg]
    intro hc
    rw [hu] at hc
    exact absurd hc.1 (by simp)
  · intro hu hsome
    simp only [motLossInit]
    rw [if_neg]
    intro hc
    exact hsome hc.2

/-- Witness for C9 at a concrete enabled-but-unsupported configuration: the
construction errors. -/
theorem C9_init_amended_witness : ∃ e, motLossInit c9Bad = Except.error e :=
  (C9_init_amended c9Bad).1.mpr (by simp [c9Bad])
